import Mathlib

/-!
Shallow embedding of the collision-outcome resolver of the MarsDiskSimulation
repository (`rebound/MarsRing/fragmentation/problem.c` and
`rebound/MarsRing/mars_shearing_sheet/problem.c`), over exact real arithmetic.

Doubles are modelled by `ℝ`; the C `int` values (fragment counts, the global
fragment counter, disposition codes) by `ℤ`; the C cast `(int)x` of a double by
truncation toward zero (`ctrunc`).  Particle identifiers (`reb_hash("FRAGn")`)
are modelled by the integer index `n` itself; `reb_hash` is an external string
hash, injective on these names by assumption.  C library calls `sqrt`, `pow`,
`cos`, `sin`, `acos`, `floor` become `Real.sqrt`, `Real.rpow` (written `^` with
a real exponent), `Real.cos`, `Real.sin`, `Real.arccos`, `Int.floor`.
-/

namespace MarsDisk

/-- A REBOUND particle, restricted to the fields this resolver reads or
writes: mass, radius, position, velocity, last-collision timestamp and the
hash identifier (modelled as an integer index, see the file comment). -/
structure Particle where
  m : ℝ
  r : ℝ
  x : ℝ
  y : ℝ
  z : ℝ
  vx : ℝ
  vy : ℝ
  vz : ℝ
  last_collision : ℝ
  hash : ℤ
deriving Inhabited

/-- The `struct collision_params` of both problem.c files (indices of the two
bodies plus the derived dynamical quantities of the encounter). -/
structure CollisionParams where
  target : ℕ
  projectile : ℕ
  dx : ℝ
  dy : ℝ
  dz : ℝ
  b : ℝ
  Vix : ℝ
  Viy : ℝ
  Viz : ℝ
  Vi : ℝ
  l : ℝ
  rho1 : ℝ
  cstar : ℝ
  mu : ℝ
  QR : ℝ
  QpRD : ℝ
  V_esc : ℝ
  separation_distance : ℝ
  Mlr : ℝ
  Mslr : ℝ
  Q : ℝ
  Mlr_dag : ℝ
  Q_star : ℝ
  vrel : ℝ
  xrel : ℝ
  collision_type : ℤ
  no_frags : ℤ
deriving Inhabited

/-- `get_dot`: dot product of two vectors given componentwise. -/
def get_dot (x1 y1 z1 x2 y2 z2 : ℝ) : ℝ := x1 * x2 + y1 * y2 + z1 * z2

/-- `get_mag`: Euclidean norm of a vector. -/
noncomputable def get_mag (x y z : ℝ) : ℝ := Real.sqrt (x ^ 2 + y ^ 2 + z ^ 2)

/-- `get_radii`: sphere radius from mass and density, `((3m)/(4πρ))^(1/3)`. -/
noncomputable def get_radii (m rho : ℝ) : ℝ :=
  (3 * m / (4 * Real.pi * rho)) ^ ((1 : ℝ) / 3)

/-- C cast `(int)x` of a double: truncation toward zero. -/
noncomputable def ctrunc (x : ℝ) : ℤ := if 0 ≤ x then ⌊x⌋ else -⌊-x⌋

/-- Modelled from the spec: the external REBOUND helper
`reb_particle_com_of_pair` (the particle store is an external collaborator);
"the target is repositioned to the pair's center of mass": summed mass,
mass-weighted position and velocity. -/
noncomputable def reb_particle_com_of_pair (p1 p2 : Particle) : Particle :=
  { m := p1.m + p2.m
    r := 0
    x := (p1.x * p1.m + p2.x * p2.m) / (p1.m + p2.m)
    y := (p1.y * p1.m + p2.y * p2.m) / (p1.m + p2.m)
    z := (p1.z * p1.m + p2.z * p2.m) / (p1.m + p2.m)
    vx := (p1.vx * p1.m + p2.vx * p2.m) / (p1.m + p2.m)
    vy := (p1.vy * p1.m + p2.vy * p2.m) / (p1.m + p2.m)
    vz := (p1.vz * p1.m + p2.vz * p2.m) / (p1.m + p2.m)
    last_collision := 0
    hash := 0 }

/-- The seven-way outcome classification of `reb_collision_resolve_fragment`
(the four non-grazing terminal outcomes, plus the transfer to the
hit-and-run sub-resolver). -/
inductive Outcome where
  | Merge
  | EffectiveMerge
  | SuperCatastrophic
  | PartialErosion
  | PartialAccretion
  | HitAndRunDelegate
deriving DecidableEq, Inhabited

/-- The branch structure of `reb_collision_resolve_fragment` after the
dynamical context has been built (problem.c, the `if (Vi <= V_esc) ... else
...` cascade): which terminal operator is selected. -/
noncomputable def classify (Vi V_esc b targ_r M_tot Mlr targ_m min_frag_mass : ℝ) :
    Outcome :=
  if Vi ≤ V_esc then .Merge
  else if b < targ_r then
    if M_tot - Mlr < min_frag_mass then .EffectiveMerge
    else if Mlr < targ_m then
      if Mlr ≤ 0.1 * targ_m then .SuperCatastrophic else .PartialErosion
    else .PartialAccretion
  else .HitAndRunDelegate

/-- `merge` (both problem.c files): folds the projectile `pj` into the target
`pi`, conserving mass and momentum; the combined radius is recomputed from the
combined mass at the target's own pre-merge density.  Only the target record
is written; the returned particle is the mutated target. -/
noncomputable def merge_body (pi pj : Particle) (t : ℝ) : Particle :=
  let invmass := 1.0 / (pi.m + pj.m)
  let targ_rho := pi.m / (4 / 3 * Real.pi * pi.r ^ 3)
  { pi with
    vx := (pi.vx * pi.m + pj.vx * pj.m) * invmass
    vy := (pi.vy * pi.m + pj.vy * pj.m) * invmass
    vz := (pi.vz * pi.m + pj.vz * pj.m) * invmass
    x := (pi.x * pi.m + pj.x * pj.m) * invmass
    y := (pi.y * pi.m + pj.y * pj.m) * invmass
    z := (pi.z * pi.m + pj.z * pj.m) * invmass
    m := pi.m + pj.m
    r := (3 * (pi.m + pj.m) / (4 * Real.pi * targ_rho)) ^ ((1 : ℝ) / 3)
    last_collision := t }

/-- `rho1` selection in `reb_collision_resolve_fragment`: the assumed constant
bulk density is chosen by matching the numeric value of G (unit-system
sniffing).  When G matches none of the three cases the C variable is left
uninitialized (undefined behavior); the embedding returns 0 there. -/
noncomputable def rho1_of (G : ℝ) : ℝ :=
  if G = 6.674e-8 then 1
  else if G = 6.674e-11 then 1000
  else if G = 39.476926421373 ∨ G = 1 then 1.684e6
  else 0

/-- `Q_star` in `reb_collision_resolve_fragment` (Chambers Eq. 5 plus the two
special cases): the generic value, overridden by the effectively-infinite
sentinel when `alpha == 0`, overridden in turn by `Q0` for a head-on
equal-mass encounter. -/
noncomputable def Q_star_of (mu alphamu gamma Q0 alpha b imp_m targ_m : ℝ) : ℝ :=
  let qs0 := (mu / alphamu) ^ (1.5 : ℝ) * ((1 + gamma) ^ 2 / (4 * gamma)) * Q0
  let qs1 := if alpha = 0 then 6364136223846793005.0 else qs0
  if b = 0 ∧ imp_m = targ_m then Q0 else qs1

/-- `Mlr` in `reb_collision_resolve_fragment` (Chambers Eq. 8): the
provisional largest-remnant mass as a function of `M_tot` and `qratio =
Q/Q_star`. -/
noncomputable def Mlr_of (M_tot Q Q_star : ℝ) : ℝ :=
  if Q / Q_star < 1.8 then M_tot * (1.0 - 0.5 * (Q / Q_star))
  else 0.1 * M_tot * (Q / Q_star / 1.8) ^ (-1.5 : ℝ)

/-- The `remaining_mass` computed at the top of `add_fragments`: the pair's
mass minus `Mlr`, minus `Mslr` when a second-largest remnant is present. -/
noncomputable def frag_remaining_mass (target projectile : Particle)
    (params : CollisionParams) : ℝ :=
  let remaining := target.m + projectile.m - params.Mlr
  if params.Mslr > 0 then remaining - params.Mslr else remaining

/-- The fragment count `no_frags = (int)(remaining_mass/min_frag_mass)` of
`add_fragments`. -/
noncomputable def frag_no_frags (min_frag_mass : ℝ) (target projectile : Particle)
    (params : CollisionParams) : ℤ :=
  ctrunc (frag_remaining_mass target projectile params / min_frag_mass)

/-- The ejection speed given to every new body in `add_fragments`:
`sqrt(1.1*V_esc^2 - 2*G*initial_mass*(1/rtot - 1/separation_distance))`. -/
noncomputable def fragment_velocity_of (G initial_mass V_esc rtot sep : ℝ) : ℝ :=
  Real.sqrt (1.1 * V_esc ^ 2 - 2 * G * initial_mass * (1 / rtot - 1 / sep))

/-- Result of `add_fragments`: the mutated target, the list of bodies appended
to the simulation (second-largest remnant first, then the equal-mass
fragments), and the updated global fragment counter `tot_no_frags`. -/
structure FragResult where
  target : Particle
  newParts : List Particle
  tot : ℤ

/-- `add_fragments` of `rebound/MarsRing/fragmentation/problem.c`: assigns the
target `Mlr` at the pair's center of mass, creates the optional second-largest
remnant and `no_frags` equal-mass fragments on a circle of radius
`separation_distance` in the collision plane, advances the global fragment
counter `tot`, and applies the final momentum-correction pass to the target
and every newly created body.  (The `mars_shearing_sheet` copy additionally
asserts its preconditions and wraps positions into the periodic box; see
`ss_add_fragments`.) -/
noncomputable def add_fragments (G t min_frag_mass : ℝ) (tot : ℤ)
    (target projectile : Particle) (params : CollisionParams) : FragResult :=
  let com := reb_particle_com_of_pair target projectile
  let initial_mass := target.m + projectile.m
  let rho := target.m / (4 / 3 * Real.pi * target.r ^ 3)
  let rtot := target.r + projectile.r
  let big_frags : ℤ := if params.Mslr > 0 then 1 else 0
  let remaining_mass := frag_remaining_mass target projectile params
  let no_frags : ℤ := frag_no_frags min_frag_mass target projectile params
  let frag_mass := remaining_mass / (no_frags : ℝ)
  let new_bodies : ℤ := no_frags + big_frags
  let target1 : Particle :=
    { target with
      last_collision := t
      m := params.Mlr
      r := get_radii params.Mlr rho
      x := com.x, y := com.y, z := com.z
      vx := com.vx, vy := com.vy, vz := com.vz }
  let swapped := no_frags = 1 ∧ params.Mlr ≤ frag_mass
  let target2 :=
    if swapped then
      { target1 with m := frag_mass, r := get_radii frag_mass rho }
    else target1
  let frag_mass2 := if swapped then params.Mlr else frag_mass
  let theta_inc := 2 * Real.pi / (new_bodies : ℝ)
  let unit_vix := params.Vix / params.vrel
  let unit_viy := params.Viy / params.vrel
  let unit_viz := params.Viz / params.vrel
  let zx0 := params.Viy * params.dz - params.Viz * params.dy
  let zy0 := params.Viz * params.dx - params.Vix * params.dz
  let zz0 := params.Vix * params.dy - params.Viy * params.dx
  let zmag := get_mag zx0 zy0 zz0
  let zx := zx0 / zmag
  let zy := zy0 / zmag
  let zz := zz0 / zmag
  let ox0 := zy * params.Viz - zz * params.Viy
  let oy0 := zz * params.Vix - zx * params.Viz
  let oz0 := zx * params.Viy - zy * params.Vix
  let omag := get_mag ox0 oy0 oz0
  let ox := ox0 / omag
  let oy := oy0 / omag
  let oz := oz0 / omag
  let fragment_velocity :=
    fragment_velocity_of G initial_mass params.V_esc rtot params.separation_distance
  let slr1 : Particle :=
    { m := params.Mslr
      x := com.x + params.separation_distance * unit_vix
      y := com.y + params.separation_distance * unit_viy
      z := com.z + params.separation_distance * unit_viz
      vx := com.vx + fragment_velocity * unit_vix
      vy := com.vy + fragment_velocity * unit_viy
      vz := com.vz + fragment_velocity * unit_viz
      r := get_radii params.Mslr rho
      last_collision := t
      hash := tot + 1 }
  let mkFrag : ℕ → Particle := fun j =>
    { m := frag_mass2
      x := com.x + params.separation_distance *
        (Real.cos (theta_inc * j) * unit_vix + Real.sin (theta_inc * j) * ox)
      y := com.y + params.separation_distance *
        (Real.cos (theta_inc * j) * unit_viy + Real.sin (theta_inc * j) * oy)
      z := com.z + params.separation_distance *
        (Real.cos (theta_inc * j) * unit_viz + Real.sin (theta_inc * j) * oz)
      vx := com.vx + fragment_velocity *
        (Real.cos (theta_inc * j) * unit_vix + Real.sin (theta_inc * j) * ox)
      vy := com.vy + fragment_velocity *
        (Real.cos (theta_inc * j) * unit_viy + Real.sin (theta_inc * j) * oy)
      vz := com.vz + fragment_velocity *
        (Real.cos (theta_inc * j) * unit_viz + Real.sin (theta_inc * j) * oz)
      r := get_radii frag_mass2 rho
      last_collision := t
      hash := tot + big_frags + (j : ℤ) }
  let frags := (List.range no_frags.toNat).map (fun k => mkFrag (k + 1))
  let newParts0 := (if params.Mslr > 0 then [slr1] else []) ++ frags
  let tot2 := tot + big_frags + no_frags
  let mxsum_x := target2.m * target2.x + ((newParts0.map fun p => p.m * p.x).sum)
  let mxsum_y := target2.m * target2.y + ((newParts0.map fun p => p.m * p.y).sum)
  let mxsum_z := target2.m * target2.z + ((newParts0.map fun p => p.m * p.z).sum)
  let mvsum_x := target2.m * target2.vx + ((newParts0.map fun p => p.m * p.vx).sum)
  let mvsum_y := target2.m * target2.vy + ((newParts0.map fun p => p.m * p.vy).sum)
  let mvsum_z := target2.m * target2.vz + ((newParts0.map fun p => p.m * p.vz).sum)
  let xoff_x := com.x - mxsum_x / initial_mass
  let xoff_y := com.y - mxsum_y / initial_mass
  let xoff_z := com.z - mxsum_z / initial_mass
  let voff_x := com.vx - mvsum_x / initial_mass
  let voff_y := com.vy - mvsum_y / initial_mass
  let voff_z := com.vz - mvsum_z / initial_mass
  let correct : Particle → Particle := fun p =>
    { p with
      x := p.x + xoff_x * p.m / initial_mass
      y := p.y + xoff_y * p.m / initial_mass
      z := p.z + xoff_z * p.m / initial_mass
      vx := p.vx + voff_x * p.m / initial_mass
      vy := p.vy + voff_y * p.m / initial_mass
      vz := p.vz + voff_z * p.m / initial_mass }
  { target := correct target2
    newParts := newParts0.map correct
    tot := tot2 }

/-- Mass-weighted sum of a particle attribute over the target plus all newly
created bodies of a fragmentation event. -/
def wsum (res : FragResult) (f : Particle → ℝ) : ℝ :=
  res.target.m * f res.target + ((res.newParts.map fun p => p.m * f p).sum)

/-- The periodic-box wrap applied by the `mars_shearing_sheet` copy of
`add_fragments` to each new body: `x -= L*floor((x + 0.5*L)/L)`. -/
noncomputable def wrap_coord (L xx : ℝ) : ℝ := xx - L * (⌊(xx + 0.5 * L) / L⌋ : ℤ)

/-- `add_fragments` of `rebound/MarsRing/mars_shearing_sheet/problem.c`: same
computation as `add_fragments`, except that (a) the three `assert` sanity
checks stop the run (`none`) when `min_frag_mass` or `remaining_mass` is not
positive or `no_frags` lies outside `(0, 10^6)`, and (b) each new body's x/y
position is wrapped into the periodic box after the momentum sums have been
accumulated and before the body is added. -/
noncomputable def ss_add_fragments (G t min_frag_mass Lx Ly : ℝ) (tot : ℤ)
    (target projectile : Particle) (params : CollisionParams) :
    Option FragResult :=
  let com := reb_particle_com_of_pair target projectile
  let initial_mass := target.m + projectile.m
  let rho := target.m / (4 / 3 * Real.pi * target.r ^ 3)
  let rtot := target.r + projectile.r
  let big_frags : ℤ := if params.Mslr > 0 then 1 else 0
  let remaining_mass := frag_remaining_mass target projectile params
  if ¬ min_frag_mass > 0 then none
  else if ¬ remaining_mass > 0 then none
  else
    let no_frags : ℤ := frag_no_frags min_frag_mass target projectile params
    if ¬ (no_frags > 0 ∧ no_frags < 1000000) then none
    else
      let frag_mass := remaining_mass / (no_frags : ℝ)
      let new_bodies : ℤ := no_frags + big_frags
      let target1 : Particle :=
        { target with
          last_collision := t
          m := params.Mlr
          r := get_radii params.Mlr rho
          x := com.x, y := com.y, z := com.z
          vx := com.vx, vy := com.vy, vz := com.vz }
      let swapped := no_frags = 1 ∧ params.Mlr ≤ frag_mass
      let target2 :=
        if swapped then
          { target1 with m := frag_mass, r := get_radii frag_mass rho }
        else target1
      let frag_mass2 := if swapped then params.Mlr else frag_mass
      let theta_inc := 2 * Real.pi / (new_bodies : ℝ)
      let unit_vix := params.Vix / params.vrel
      let unit_viy := params.Viy / params.vrel
      let unit_viz := params.Viz / params.vrel
      let zx0 := params.Viy * params.dz - params.Viz * params.dy
      let zy0 := params.Viz * params.dx - params.Vix * params.dz
      let zz0 := params.Vix * params.dy - params.Viy * params.dx
      let zmag := get_mag zx0 zy0 zz0
      let zx := zx0 / zmag
      let zy := zy0 / zmag
      let zz := zz0 / zmag
      let ox0 := zy * params.Viz - zz * params.Viy
      let oy0 := zz * params.Vix - zx * params.Viz
      let oz0 := zx * params.Viy - zy * params.Vix
      let omag := get_mag ox0 oy0 oz0
      let ox := ox0 / omag
      let oy := oy0 / omag
      let oz := oz0 / omag
      let fragment_velocity :=
        fragment_velocity_of G initial_mass params.V_esc rtot
          params.separation_distance
      let slr1 : Particle :=
        { m := params.Mslr
          x := com.x + params.separation_distance * unit_vix
          y := com.y + params.separation_distance * unit_viy
          z := com.z + params.separation_distance * unit_viz
          vx := com.vx + fragment_velocity * unit_vix
          vy := com.vy + fragment_velocity * unit_viy
          vz := com.vz + fragment_velocity * unit_viz
          r := get_radii params.Mslr rho
          last_collision := t
          hash := tot + 1 }
      let mkFrag : ℕ → Particle := fun j =>
        { m := frag_mass2
          x := com.x + params.separation_distance *
            (Real.cos (theta_inc * j) * unit_vix + Real.sin (theta_inc * j) * ox)
          y := com.y + params.separation_distance *
            (Real.cos (theta_inc * j) * unit_viy + Real.sin (theta_inc * j) * oy)
          z := com.z + params.separation_distance *
            (Real.cos (theta_inc * j) * unit_viz + Real.sin (theta_inc * j) * oz)
          vx := com.vx + fragment_velocity *
            (Real.cos (theta_inc * j) * unit_vix + Real.sin (theta_inc * j) * ox)
          vy := com.vy + fragment_velocity *
            (Real.cos (theta_inc * j) * unit_viy + Real.sin (theta_inc * j) * oy)
          vz := com.vz + fragment_velocity *
            (Real.cos (theta_inc * j) * unit_viz + Real.sin (theta_inc * j) * oz)
          r := get_radii frag_mass2 rho
          last_collision := t
          hash := tot + big_frags + (j : ℤ) }
      let frags := (List.range no_frags.toNat).map (fun k => mkFrag (k + 1))
      let preWrap := (if params.Mslr > 0 then [slr1] else []) ++ frags
      let wrapxy : Particle → Particle := fun p =>
        { p with x := wrap_coord Lx p.x, y := wrap_coord Ly p.y }
      let newParts0 := preWrap.map wrapxy
      let tot2 := tot + big_frags + no_frags
      let mxsum_x := target2.m * target2.x + ((preWrap.map fun p => p.m * p.x).sum)
      let mxsum_y := target2.m * target2.y + ((preWrap.map fun p => p.m * p.y).sum)
      let mxsum_z := target2.m * target2.z + ((preWrap.map fun p => p.m * p.z).sum)
      let mvsum_x := target2.m * target2.vx + ((preWrap.map fun p => p.m * p.vx).sum)
      let mvsum_y := target2.m * target2.vy + ((preWrap.map fun p => p.m * p.vy).sum)
      let mvsum_z := target2.m * target2.vz + ((preWrap.map fun p => p.m * p.vz).sum)
      let xoff_x := com.x - mxsum_x / initial_mass
      let xoff_y := com.y - mxsum_y / initial_mass
      let xoff_z := com.z - mxsum_z / initial_mass
      let voff_x := com.vx - mvsum_x / initial_mass
      let voff_y := com.vy - mvsum_y / initial_mass
      let voff_z := com.vz - mvsum_z / initial_mass
      let correct : Particle → Particle := fun p =>
        { p with
          x := p.x + xoff_x * (p.m / initial_mass)
          y := p.y + xoff_y * (p.m / initial_mass)
          z := p.z + xoff_z * (p.m / initial_mass)
          vx := p.vx + voff_x * (p.m / initial_mass)
          vy := p.vy + voff_y * (p.m / initial_mass)
          vz := p.vz + voff_z * (p.m / initial_mass) }
      some { target := correct target2
             newParts := newParts0.map correct
             tot := tot2 }

/-- A collision event handed over by REBOUND: the indices of the two
colliding particles. -/
structure Collision where
  p1 : ℕ
  p2 : ℕ
deriving Inhabited

/-- The slice of the REBOUND simulation object this resolver touches: the
particle array, the simulation time, the gravitational constant, plus the
module-level tunables `min_frag_mass` and `tot_no_frags`. -/
structure SimState where
  particles : List Particle
  t : ℝ
  G : ℝ
  min_frag_mass : ℝ
  tot_no_frags : ℤ

/-- The state update of a `merge(r,c,params)` call: the target slot is
overwritten with the merged body. -/
noncomputable def apply_merge (st : SimState) (params : CollisionParams) : SimState :=
  { st with
    particles := st.particles.set params.target
      (merge_body (st.particles.getD params.target default)
        (st.particles.getD params.projectile default) st.t) }

/-- The state update of an `add_fragments(r,c,params)` call: the target slot
is overwritten, the new bodies are appended (`reb_simulation_add`), and the
global fragment counter is advanced. -/
noncomputable def apply_add_fragments (st : SimState) (params : CollisionParams) :
    SimState :=
  let res := add_fragments st.G st.t st.min_frag_mass st.tot_no_frags
    (st.particles.getD params.target default)
    (st.particles.getD params.projectile default) params
  { st with
    particles := (st.particles.set params.target res.target) ++ res.newParts
    tot_no_frags := res.tot }

/-- `hit_and_run` (both problem.c files): the sub-resolver for grazing
encounters.  `hardsphere` is the externally supplied elastic restitution
resolver `reb_collision_resolve_hardsphere` invoked on the bounce branches.
Returns the mutated state and the swap disposition code. -/
noncomputable def hit_and_run (hardsphere : SimState → Collision → SimState)
    (st : SimState) (c : Collision) (params : CollisionParams) : SimState × ℤ :=
  let target := st.particles.getD params.target default
  let projectile := st.particles.getD params.projectile default
  let swap0 : ℤ :=
    if (st.particles.getD c.p1 default).m < (st.particles.getD c.p2 default).m
    then 1 else 2
  let phi := 2 * Real.arccos ((params.l - projectile.r) / projectile.r)
  let A_interact := projectile.r ^ 2 * (Real.pi - (phi - Real.sin phi) / 2)
  let L_interact :=
    2 * ((target.r ^ 2 - (target.r - params.l / 2) ^ 2) ^ (0.5 : ℝ))
  let beta := A_interact * L_interact / target.m
  let Rc1 := (3 / (4 * Real.pi * params.rho1) *
    (beta * target.m + projectile.m)) ^ ((1 : ℝ) / 3)
  let Q0 := 0.8 * params.cstar * Real.pi * params.rho1 * st.G * Rc1 ^ 2
  let gamma := beta * target.m / projectile.m
  let Q_star := (1 + gamma) ^ 2 / 4 * gamma * Q0
  let mu := beta * target.m * projectile.m / (beta * target.m + projectile.m)
  let Q := 0.5 * (mu * params.Vi ^ 2) / (beta * target.m + projectile.m)
  let c1 := 2.43
  let c2 := -0.0408
  let c3 := 1.86
  let c4 := 1.08
  let targ_m := target.m
  let imp_m := projectile.m
  let zeta := ((targ_m - imp_m) / (targ_m + imp_m)) ^ 2
  let fac := (1 - params.b / (target.r + projectile.r)) ^ (2.5 : ℝ)
  let v_crit := params.V_esc * (c1 * zeta * fac + c2 * zeta + c3 * fac + c4)
  if params.Vi ≤ v_crit then
    (apply_merge st { params with collision_type := 1 }, swap0)
  else
    let params1 := { params with Mlr := max params.Mlr st.min_frag_mass }
    if params1.Mlr < targ_m then
      if targ_m + imp_m - params1.Mlr ≤ st.min_frag_mass then
        (hardsphere st c, 0)
      else
        (apply_add_fragments st { params1 with collision_type := 3 }, swap0)
    else
      let Mlr_dag0 :=
        if Q < 1.8 * Q_star then
          (beta * targ_m + imp_m) * (1 - Q / (2 * Q_star))
        else
          (beta * target.m + projectile.m) / 10 * (Q / (1.8 * Q_star)) ^ (-1.5 : ℝ)
      let new_projectile_mass := projectile.m - (params1.Mlr - targ_m)
      let Mlr_dag := max Mlr_dag0 st.min_frag_mass
      if new_projectile_mass - Mlr_dag < st.min_frag_mass then
        (hardsphere st c, 0)
      else
        (apply_add_fragments st
          { params1 with
            Mslr := Mlr_dag
            collision_type := 2 }, swap0)

/-- The body of `reb_collision_resolve_fragment` after the two early-return
guards: target/projectile ordering by mass, construction of the full
dynamical context (impact geometry, impact energy, `Q_star`, `Mlr`), then the
outcome cascade dispatching to `merge`, `add_fragments` or `hit_and_run`.
The `exit(0)` on a NaN impact parameter is modelled as `none`; over exact
reals `b = sqrt(h2/v2imp)` is the 0/0 indeterminate exactly when `h2 = 0` and
`v2imp = 0` (`h2 ≥ 0` and `v2imp ≥ 0` always hold). -/
noncomputable def resolve_body (hardsphere : SimState → Collision → SimState)
    (st : SimState) (c : Collision) : Option (SimState × ℤ) :=
  let swapAndIdx : ℤ × ℕ × ℕ :=
    if (st.particles.getD c.p1 default).m < (st.particles.getD c.p2 default).m
    then (1, c.p2, c.p1) else (2, c.p1, c.p2)
  let swap0 := swapAndIdx.1
  let i := swapAndIdx.2.1
  let j := swapAndIdx.2.2
  let pi := st.particles.getD i default
  let pj := st.particles.getD j default
  let imp_r := pj.r
  let targ_r := pi.r
  let R_tot := imp_r + targ_r
  let imp_m := pj.m
  let targ_m := pi.m
  let M_tot := imp_m + targ_m
  let G := st.G
  let dx := pi.x - pj.x
  let dy := pi.y - pj.y
  let dz := pi.z - pj.z
  let x2rel := get_dot dx dy dz dx dy dz
  let Vix := pi.vx - pj.vx
  let Viy := pi.vy - pj.vy
  let Viz := pi.vz - pj.vz
  let v2rel := get_dot Vix Viy Viz Vix Viy Viz
  let xrel := Real.sqrt x2rel
  let hx := dy * Viz - dz * Viy
  let hy := dz * Vix - dx * Viz
  let hz := dx * Viy - dy * Vix
  let h2 := get_dot hx hy hz hx hy hz
  let v2imp0 := v2rel + 2 * G * M_tot * (1 / R_tot - 1 / xrel)
  let v2imp := if 1 / R_tot - 1 / xrel < 0 then v2rel else v2imp0
  let Vi := Real.sqrt v2imp
  let b := Real.sqrt (h2 / v2imp)
  if h2 = 0 ∧ v2imp = 0 then none
  else
    let mu := targ_m * imp_m / M_tot
    let l := min (R_tot - b) (2 * imp_r)
    let alpha := min 1 (l ^ 2 * (3 * imp_r - l) / (4 * imp_r ^ 3))
    let Q := 0.5 * v2imp * targ_m * imp_m / M_tot ^ 2
    let V_esc := (2 * G * M_tot / R_tot) ^ (0.5 : ℝ)
    let alphamu := alpha * targ_m * imp_m / (alpha * imp_m + targ_m)
    let gamma := imp_m / targ_m
    let cstar := 1.8
    let rho1 := rho1_of G
    let Rc1 := (M_tot * 3 / (4 * Real.pi * rho1)) ^ ((1 : ℝ) / 3)
    let Q0 := 0.8 * cstar * Real.pi * rho1 * G * Rc1 ^ 2
    let Q_star := Q_star_of mu alphamu gamma Q0 alpha b imp_m targ_m
    let Mlr := Mlr_of M_tot Q Q_star
    let separation_distance := 4 * R_tot
    let params : CollisionParams :=
      { target := i, projectile := j
        dx := dx, dy := dy, dz := dz, b := b
        Vix := Vix, Viy := Viy, Viz := Viz, Vi := Vi
        l := l, rho1 := rho1, cstar := cstar, mu := mu
        QR := 0, QpRD := 0
        V_esc := V_esc, separation_distance := separation_distance
        Mlr := Mlr, Mslr := 0, Q := Q, Mlr_dag := 0, Q_star := Q_star
        vrel := Real.sqrt v2rel, xrel := xrel
        collision_type := 0, no_frags := 0 }
    match classify Vi V_esc b targ_r M_tot Mlr targ_m st.min_frag_mass with
    | .Merge =>
        some (apply_merge st { params with collision_type := 1 }, swap0)
    | .EffectiveMerge =>
        some (apply_merge st { params with collision_type := 1 }, swap0)
    | .SuperCatastrophic =>
        some (apply_add_fragments st
          { params with
            collision_type := 4
            Mlr := max Mlr st.min_frag_mass }, swap0)
    | .PartialErosion =>
        some (apply_add_fragments st
          { params with
            collision_type := 3
            Mlr := max Mlr st.min_frag_mass }, swap0)
    | .PartialAccretion =>
        some (apply_add_fragments st { params with collision_type := 2 }, swap0)
    | .HitAndRunDelegate =>
        some (hit_and_run hardsphere st c params)

/-- `reb_collision_resolve_fragment` (both problem.c files): the two
early-return guards (same-timestep re-resolution, and `c.p1 < c.p2` pair
deduplication) return disposition code 0 with the state untouched; otherwise
the collision is resolved by `resolve_body`. -/
noncomputable def reb_collision_resolve_fragment
    (hardsphere : SimState → Collision → SimState)
    (st : SimState) (c : Collision) : Option (SimState × ℤ) :=
  if (st.particles.getD c.p1 default).last_collision = st.t ∨
      (st.particles.getD c.p2 default).last_collision = st.t then
    some (st, 0)
  else if c.p1 < c.p2 then
    some (st, 0)
  else
    resolve_body hardsphere st c

/-- A run of successive fragmentation events threaded through the global
fragment counter `tot_no_frags`: each event is an `add_fragments` call on its
(target, projectile, params) triple; returns the final counter and the
concatenated list of created fragment identifiers, in creation order. -/
noncomputable def run_frag_events (G t min_frag_mass : ℝ) :
    List (Particle × Particle × CollisionParams) → ℤ → ℤ × List ℤ
  | [], tot => (tot, [])
  | e :: es, tot =>
      let res := add_fragments G t min_frag_mass tot e.1 e.2.1 e.2.2
      let rest := run_frag_events G t min_frag_mass es res.tot
      (rest.1, (res.newParts.map fun p => p.hash) ++ rest.2)

/-- Sum of a mapped `List.range` as a `Finset.range` sum. -/
theorem list_range_map_sum (n : ℕ) (f : ℕ → ℝ) :
    ((List.range n).map f).sum = ∑ k ∈ Finset.range n, f k := by
  induction n with
  | zero => simp
  | succ m ih =>
      rw [List.range_succ, List.map_append, List.sum_append,
        Finset.sum_range_succ, ih]
      simp

/-- The total mass assigned by `add_fragments` (target plus all new bodies)
equals the colliding pair's mass, whenever at least one fragment is
produced. -/
theorem add_fragments_mass_sum (G t mfm : ℝ) (tot : ℤ) (tp pj : Particle)
    (ps : CollisionParams) (h1 : 1 ≤ frag_no_frags mfm tp pj ps) :
    (add_fragments G t mfm tot tp pj ps).target.m +
      (((add_fragments G t mfm tot tp pj ps).newParts.map fun p => p.m).sum) =
      tp.m + pj.m := by
  have h0 : (0 : ℤ) ≤ frag_no_frags mfm tp pj ps := by linarith
  have htn : ((frag_no_frags mfm tp pj ps).toNat : ℝ) =
      ((frag_no_frags mfm tp pj ps : ℤ) : ℝ) := by
    rw [← Int.cast_natCast, Int.toNat_of_nonneg h0]
  have hne : ((frag_no_frags mfm tp pj ps : ℤ) : ℝ) ≠ 0 := by
    have : (1 : ℝ) ≤ ((frag_no_frags mfm tp pj ps : ℤ) : ℝ) := by
      exact_mod_cast h1
    linarith
  have hmul : ((frag_no_frags mfm tp pj ps).toNat : ℝ) *
      (frag_remaining_mass tp pj ps / ((frag_no_frags mfm tp pj ps : ℤ) : ℝ)) =
      frag_remaining_mass tp pj ps := by
    rw [htn, mul_div_cancel₀ _ hne]
  by_cases hb : ps.Mslr > 0 <;>
    by_cases hsw : frag_no_frags mfm tp pj ps = 1 ∧
      ps.Mlr ≤ frag_remaining_mass tp pj ps / ((frag_no_frags mfm tp pj ps : ℤ) : ℝ)
  all_goals
    simp only [add_fragments, hb, hsw, if_true, if_false, if_pos, if_neg,
      not_false_iff, List.map_append, List.map_map, List.sum_append,
      List.map_cons, List.map_nil, List.sum_cons, List.sum_nil,
      Function.comp_def]
  all_goals simp [hb, hsw, list_range_map_sum, Finset.sum_const, nsmul_eq_mul]
  · obtain ⟨hn1, hle⟩ := hsw
    rw [hn1] at hle
    norm_num [frag_remaining_mass, hb] at hle
    simp [frag_remaining_mass, hb, hle]
    ring
  · rw [hmul]
    simp [frag_remaining_mass, hb]
  · obtain ⟨hn1, hle⟩ := hsw
    rw [hn1] at hle
    norm_num [frag_remaining_mass, hb] at hle
    simp [frag_remaining_mass, hb, hle]
  · rw [hmul]
    simp [frag_remaining_mass, hb]

/-- The counter update of one `add_fragments` call:
`tot_no_frags += big_frags + no_frags`. -/
theorem add_fragments_tot (G t mfm : ℝ) (tot : ℤ) (tp pj : Particle)
    (ps : CollisionParams) :
    (add_fragments G t mfm tot tp pj ps).tot =
      tot + (if ps.Mslr > 0 then 1 else 0) + frag_no_frags mfm tp pj ps := by
  by_cases hb : ps.Mslr > 0 <;> simp [add_fragments, hb]

/-- The identifiers created by one `add_fragments` call: `FRAG(tot+1)` for the
second-largest remnant when present, then `FRAG(tot+big_frags+j)` for the
fragments `j = 1..no_frags`. -/
theorem add_fragments_hashes (G t mfm : ℝ) (tot : ℤ) (tp pj : Particle)
    (ps : CollisionParams) :
    (add_fragments G t mfm tot tp pj ps).newParts.map (fun p => p.hash) =
      (if ps.Mslr > 0 then [tot + 1] else []) ++
        (List.range (frag_no_frags mfm tp pj ps).toNat).map
          (fun k : ℕ => tot + (if ps.Mslr > 0 then 1 else 0) + ((k : ℤ) + 1)) := by
  by_cases hb : ps.Mslr > 0 <;>
    simp [add_fragments, hb, List.map_map, Function.comp_def]

/-- The number of bodies created by one `add_fragments` call. -/
theorem add_fragments_length (G t mfm : ℝ) (tot : ℤ) (tp pj : Particle)
    (ps : CollisionParams) :
    (add_fragments G t mfm tot tp pj ps).newParts.length =
      (if ps.Mslr > 0 then 1 else 0) + (frag_no_frags mfm tp pj ps).toNat := by
  by_cases hb : ps.Mslr > 0
  · simp [add_fragments, hb]
    omega
  · simp [add_fragments, hb]

/-- One fragmentation event draws its identifiers strictly increasingly from
the interval `(tot, tot']` and advances the counter by the number of bodies
created. -/
theorem add_fragments_ids (G t mfm : ℝ) (tot : ℤ) (tp pj : Particle)
    (ps : CollisionParams) (h1 : 1 ≤ frag_no_frags mfm tp pj ps) :
    ((add_fragments G t mfm tot tp pj ps).newParts.map (fun p => p.hash)).Pairwise
        (· < ·) ∧
    (∀ i ∈ (add_fragments G t mfm tot tp pj ps).newParts.map (fun p => p.hash),
      tot < i ∧ i ≤ (add_fragments G t mfm tot tp pj ps).tot) ∧
    (add_fragments G t mfm tot tp pj ps).tot =
      tot + ((add_fragments G t mfm tot tp pj ps).newParts.length : ℤ) ∧
    tot < (add_fragments G t mfm tot tp pj ps).tot := by
  have htn : ((frag_no_frags mfm tp pj ps).toNat : ℤ) = frag_no_frags mfm tp pj ps :=
    Int.toNat_of_nonneg (by linarith)
  rw [add_fragments_hashes, add_fragments_tot, add_fragments_length]
  refine ⟨?_, ?_, ?_, ?_⟩
  · rw [List.pairwise_append]
    refine ⟨?_, ?_, ?_⟩
    · by_cases hb : ps.Mslr > 0 <;> simp [hb]
    · rw [List.pairwise_map]
      exact (List.pairwise_lt_range _).imp (fun hab => by omega)
    · intro a ha b hb
      by_cases hs : ps.Mslr > 0
      · simp [hs] at ha
        simp [List.mem_map] at hb
        obtain ⟨k, -, hk⟩ := hb
        simp [hs] at hk
        omega
      · simp [hs] at ha
  · intro i hi
    rw [List.mem_append] at hi
    rcases hi with hi | hi
    · by_cases hs : ps.Mslr > 0
      · simp [hs] at hi
        subst hi
        constructor
        · omega
        · simp [hs]
          omega
      · simp [hs] at hi
    · rw [List.mem_map] at hi
      obtain ⟨k, hk, rfl⟩ := hi
      rw [List.mem_range] at hk
      constructor
      · by_cases hs : ps.Mslr > 0
        · simp [hs]
          omega
        · simp [hs]
      · by_cases hs : ps.Mslr > 0
        · simp [hs]
          omega
        · simp [hs]
          omega
  · by_cases hs : ps.Mslr > 0 <;> simp [hs] <;> omega
  · by_cases hs : ps.Mslr > 0 <;> simp [hs] <;> omega

/-- Across a run of fragmentation events the counter never decreases and the
concatenated identifier list is strictly increasing, bounded by the initial
and final counter values. -/
theorem run_frag_events_ids (G t mfm : ℝ)
    (evs : List (Particle × Particle × CollisionParams)) :
    ∀ tot : ℤ,
      (∀ e ∈ evs, 1 ≤ frag_no_frags mfm e.1 e.2.1 e.2.2) →
      tot ≤ (run_frag_events G t mfm evs tot).1 ∧
      (run_frag_events G t mfm evs tot).2.Pairwise (· < ·) ∧
      (∀ i ∈ (run_frag_events G t mfm evs tot).2,
        tot < i ∧ i ≤ (run_frag_events G t mfm evs tot).1) := by
  induction evs with
  | nil => intro tot _; simp [run_frag_events]
  | cons e es ih =>
      intro tot h
      have he := add_fragments_ids G t mfm tot e.1 e.2.1 e.2.2
        (h e (List.mem_cons_self e es))
      have hes := ih (add_fragments G t mfm tot e.1 e.2.1 e.2.2).tot
        (fun e2 h2 => h e2 (List.mem_cons_of_mem e h2))
      simp only [run_frag_events]
      refine ⟨by omega, ?_, ?_⟩
      · rw [List.pairwise_append]
        refine ⟨he.1, hes.2.1, ?_⟩
        intro a ha b hb
        have h1 := (he.2.1 a ha).2
        have h2 := (hes.2.2 b hb).1
        omega
      · intro i hi
        rw [List.mem_append] at hi
        rcases hi with hi | hi
        · have h1 := he.2.1 i hi
          have h2 := hes.1
          exact ⟨h1.1, by omega⟩
        · have h1 := hes.2.2 i hi
          exact ⟨by omega, h1.2⟩

/-- C8: the process-wide fragment counter `tot_no_frags` only increases —
each event advances it by exactly the number of bodies it created — and every
fragment identifier index is drawn freshly above the current counter, so over
any run of fragmentation events the identifiers are pairwise distinct and
strictly increasing and no index is reused. -/
theorem frag_ids_monotone :
    (∀ (G t mfm : ℝ) (tot : ℤ) (tp pj : Particle) (ps : CollisionParams),
      1 ≤ frag_no_frags mfm tp pj ps →
      (add_fragments G t mfm tot tp pj ps).tot =
        tot + ((add_fragments G t mfm tot tp pj ps).newParts.length : ℤ) ∧
      tot < (add_fragments G t mfm tot tp pj ps).tot) ∧
    (∀ (G t mfm : ℝ) (evs : List (Particle × Particle × CollisionParams)) (tot : ℤ),
      (∀ e ∈ evs, 1 ≤ frag_no_frags mfm e.1 e.2.1 e.2.2) →
      tot ≤ (run_frag_events G t mfm evs tot).1 ∧
      (run_frag_events G t mfm evs tot).2.Pairwise (· < ·) ∧
      (∀ i ∈ (run_frag_events G t mfm evs tot).2,
        tot < i ∧ i ≤ (run_frag_events G t mfm evs tot).1)) :=
  ⟨fun G t mfm tot tp pj ps h =>
      ⟨(add_fragments_ids G t mfm tot tp pj ps h).2.2.1,
       (add_fragments_ids G t mfm tot tp pj ps h).2.2.2⟩,
   fun G t mfm evs tot h => run_frag_events_ids G t mfm evs tot h⟩

/-- Witness for C8: one concrete event (pair of mass-3 bodies, `Mlr = 2`,
four fragments) advances the counter from 0 by the number of created bodies
and leaves it positive. -/
theorem frag_ids_monotone_witness :
    (add_fragments 0 0 1 0 ⟨3, 1, 0, 0, 0, 0, 0, 0, 0, 0⟩
        ⟨3, 1, 0, 0, 0, 0, 0, 0, 0, 0⟩
        ({ (default : CollisionParams) with Mlr := 2 })).tot =
      0 + ((add_fragments 0 0 1 0 ⟨3, 1, 0, 0, 0, 0, 0, 0, 0, 0⟩
        ⟨3, 1, 0, 0, 0, 0, 0, 0, 0, 0⟩
        ({ (default : CollisionParams) with Mlr := 2 })).newParts.length : ℤ) ∧
    (0 : ℤ) < (add_fragments 0 0 1 0 ⟨3, 1, 0, 0, 0, 0, 0, 0, 0, 0⟩
        ⟨3, 1, 0, 0, 0, 0, 0, 0, 0, 0⟩
        ({ (default : CollisionParams) with Mlr := 2 })).tot := by
  apply frag_ids_monotone.1
  show (1 : ℤ) ≤ frag_no_frags 1 _ _ _
  simp [frag_no_frags, frag_remaining_mass, ctrunc, default]
  norm_num

/-- The `N`-th roots of unity (shifted by one step) sum to zero for `N ≥ 2`. -/
theorem sum_exp_rot (N : ℕ) (hN : 2 ≤ N) :
    ∑ j ∈ Finset.range N,
      Complex.exp (2 * Real.pi * Complex.I * (j + 1) / N) = 0 := by
  have h0 : N ≠ 0 := by omega
  have hprim := Complex.isPrimitiveRoot_exp N h0
  have hgeom := hprim.geom_sum_eq_zero (by omega)
  have hNne : (N : ℂ) ≠ 0 := Nat.cast_ne_zero.mpr h0
  have hterm : ∀ j : ℕ, Complex.exp (2 * Real.pi * Complex.I * (j + 1) / N)
      = Complex.exp (2 * Real.pi * Complex.I / N) ^ (j + 1) := by
    intro j
    rw [← Complex.exp_nat_mul]
    congr 1
    push_cast
    ring
  calc ∑ j ∈ Finset.range N, Complex.exp (2 * Real.pi * Complex.I * (j + 1) / N)
      = ∑ j ∈ Finset.range N, Complex.exp (2 * Real.pi * Complex.I / N) ^ (j + 1) :=
        Finset.sum_congr rfl fun j _ => hterm j
    _ = Complex.exp (2 * Real.pi * Complex.I / N) *
        ∑ j ∈ Finset.range N, Complex.exp (2 * Real.pi * Complex.I / N) ^ j := by
        rw [Finset.mul_sum]
        exact Finset.sum_congr rfl fun j _ => by ring
    _ = 0 := by rw [hgeom, mul_zero]

/-- The cosines of `N ≥ 2` equally spaced angles `2π(j+1)/N` sum to zero. -/
theorem sum_cos_rot (N : ℕ) (hN : 2 ≤ N) :
    ∑ j ∈ Finset.range N, Real.cos (2 * Real.pi * (j + 1) / N) = 0 := by
  have h := congrArg Complex.re (sum_exp_rot N hN)
  rw [Complex.re_sum] at h
  calc ∑ j ∈ Finset.range N, Real.cos (2 * Real.pi * (j + 1) / N)
      = ∑ j ∈ Finset.range N,
          (Complex.exp (2 * Real.pi * Complex.I * (j + 1) / N)).re :=
        Finset.sum_congr rfl fun j _ => by
          rw [← Complex.exp_ofReal_mul_I_re]
          congr 1
          push_cast
          ring
    _ = 0 := h

/-- The sines of `N ≥ 2` equally spaced angles `2π(j+1)/N` sum to zero. -/
theorem sum_sin_rot (N : ℕ) (hN : 2 ≤ N) :
    ∑ j ∈ Finset.range N, Real.sin (2 * Real.pi * (j + 1) / N) = 0 := by
  have h := congrArg Complex.im (sum_exp_rot N hN)
  rw [Complex.im_sum] at h
  calc ∑ j ∈ Finset.range N, Real.sin (2 * Real.pi * (j + 1) / N)
      = ∑ j ∈ Finset.range N,
          (Complex.exp (2 * Real.pi * Complex.I * (j + 1) / N)).im :=
        Finset.sum_congr rfl fun j _ => by
          rw [← Complex.exp_ofReal_mul_I_im]
          congr 1
          push_cast
          ring
    _ = 0 := h

/-- Placing equal masses `fm` at angles `2πj/N`, `j = 1..N`, around a centre
`c` leaves the mass-weighted sum at `(Mlr + N*fm)*c`, and the subsequent
mass-proportional correction pass of `add_fragments` leaves it unchanged
because the correction offset is already zero. -/
theorem circle_correction_sum (M0 Mlr fm : ℝ) (N : ℕ) (hN : 2 ≤ N) (hM0 : M0 ≠ 0)
    (c amp u o θ : ℝ)
    (hsum : Mlr + (N : ℝ) * fm = M0)
    (hθ : θ = 2 * Real.pi / (N : ℝ)) :
    Mlr * (c + (c - (Mlr * c + ((List.range N).map (fun k =>
        fm * (c + amp * (Real.cos (θ * ((k + 1 : ℕ) : ℝ)) * u +
          Real.sin (θ * ((k + 1 : ℕ) : ℝ)) * o)))).sum) / M0) * Mlr / M0) +
    ((List.range N).map (fun k =>
        fm * (c + amp * (Real.cos (θ * ((k + 1 : ℕ) : ℝ)) * u +
          Real.sin (θ * ((k + 1 : ℕ) : ℝ)) * o) +
          (c - (Mlr * c + ((List.range N).map (fun k2 =>
            fm * (c + amp * (Real.cos (θ * ((k2 + 1 : ℕ) : ℝ)) * u +
              Real.sin (θ * ((k2 + 1 : ℕ) : ℝ)) * o)))).sum) / M0) * fm / M0))).sum
    = M0 * c := by
  subst hθ
  have hS1 : (∑ k ∈ Finset.range N,
      fm * (c + amp * (Real.cos ((2 * Real.pi / (N : ℝ)) * ((k + 1 : ℕ) : ℝ)) * u +
        Real.sin ((2 * Real.pi / (N : ℝ)) * ((k + 1 : ℕ) : ℝ)) * o)))
      = (N : ℝ) * fm * c := by
    have hterm : ∀ k ∈ Finset.range N,
        fm * (c + amp * (Real.cos ((2 * Real.pi / (N : ℝ)) * ((k + 1 : ℕ) : ℝ)) * u +
          Real.sin ((2 * Real.pi / (N : ℝ)) * ((k + 1 : ℕ) : ℝ)) * o)) =
        fm * c + (fm * amp * u) * Real.cos (2 * Real.pi * ((k : ℝ) + 1) / (N : ℝ)) +
          (fm * amp * o) * Real.sin (2 * Real.pi * ((k : ℝ) + 1) / (N : ℝ)) := by
      intro k _
      have ha : (2 * Real.pi / (N : ℝ)) * ((k + 1 : ℕ) : ℝ)
          = 2 * Real.pi * ((k : ℝ) + 1) / (N : ℝ) := by
        push_cast
        ring
      rw [ha]
      ring
    have hcos : (∑ k ∈ Finset.range N,
        fm * amp * u * Real.cos (2 * Real.pi * ((k : ℝ) + 1) / (N : ℝ))) = 0 := by
      rw [← Finset.mul_sum, sum_cos_rot N hN, mul_zero]
    have hsin : (∑ k ∈ Finset.range N,
        fm * amp * o * Real.sin (2 * Real.pi * ((k : ℝ) + 1) / (N : ℝ))) = 0 := by
      rw [← Finset.mul_sum, sum_sin_rot N hN, mul_zero]
    rw [Finset.sum_congr rfl hterm, Finset.sum_add_distrib, Finset.sum_add_distrib,
      hcos, hsin]
    simp [Finset.sum_const, Finset.card_range, nsmul_eq_mul]
    ring
  have hoff : c - (Mlr * c + (N : ℝ) * fm * c) / M0 = 0 := by
    have hMc : Mlr * c + (N : ℝ) * fm * c = M0 * c := by
      rw [← hsum]
      ring
    rw [hMc, mul_div_cancel_left₀ _ hM0, sub_self]
  simp only [list_range_map_sum]
  rw [hS1, hoff]
  simp only [zero_mul, zero_div, add_zero, mul_zero]
  rw [hS1]
  rw [← hsum]
  ring

/-- C1 (amended): for every fragmentation event with no second-largest
remnant (`Mslr <= 0`) and at least two fragments, the mass-weighted sum of
positions and of velocities over the target plus all newly created bodies
after the momentum-correction pass equals the pre-collision mass-weighted sum
(equivalently, the pair's center of mass, since the masses also sum back to
the pair mass) exactly: the symmetric circle placement already conserves the
center of mass, so the correction offsets vanish.  With a second-largest
remnant, or with a single fragment, the placement is asymmetric and the
mass-proportional correction pass provably fails to restore the center of
mass exactly (see the counterexample). -/
theorem add_fragments_com_conservation
    (G t mfm : ℝ) (tot : ℤ) (tp pj : Particle) (ps : CollisionParams)
    (hm1 : 0 < tp.m) (hm2 : 0 < pj.m)
    (hb : ¬ ps.Mslr > 0)
    (hn : 2 ≤ frag_no_frags mfm tp pj ps) :
    wsum (add_fragments G t mfm tot tp pj ps) (fun p => p.x) =
      tp.m * tp.x + pj.m * pj.x ∧
    wsum (add_fragments G t mfm tot tp pj ps) (fun p => p.y) =
      tp.m * tp.y + pj.m * pj.y ∧
    wsum (add_fragments G t mfm tot tp pj ps) (fun p => p.z) =
      tp.m * tp.z + pj.m * pj.z ∧
    wsum (add_fragments G t mfm tot tp pj ps) (fun p => p.vx) =
      tp.m * tp.vx + pj.m * pj.vx ∧
    wsum (add_fragments G t mfm tot tp pj ps) (fun p => p.vy) =
      tp.m * tp.vy + pj.m * pj.vy ∧
    wsum (add_fragments G t mfm tot tp pj ps) (fun p => p.vz) =
      tp.m * tp.vz + pj.m * pj.vz := by
  have hsw : ¬ (frag_no_frags mfm tp pj ps = 1 ∧
      ps.Mlr ≤ frag_remaining_mass tp pj ps /
        ((frag_no_frags mfm tp pj ps : ℤ) : ℝ)) := by
    rintro ⟨h1, -⟩
    omega
  have hN : 2 ≤ (frag_no_frags mfm tp pj ps).toNat := by omega
  have hM0 : tp.m + pj.m ≠ 0 := by positivity
  have hNcast : (((frag_no_frags mfm tp pj ps).toNat : ℕ) : ℝ)
      = ((frag_no_frags mfm tp pj ps : ℤ) : ℝ) := by
    rw [← Int.cast_natCast, Int.toNat_of_nonneg (by omega)]
  have hne : ((frag_no_frags mfm tp pj ps : ℤ) : ℝ) ≠ 0 := by
    rw [← hNcast]
    exact_mod_cast (by omega : (frag_no_frags mfm tp pj ps).toNat ≠ 0)
  have hrem : frag_remaining_mass tp pj ps = tp.m + pj.m - ps.Mlr := by
    simp [frag_remaining_mass, hb]
  have hsum : ps.Mlr + (((frag_no_frags mfm tp pj ps).toNat : ℕ) : ℝ) *
      (frag_remaining_mass tp pj ps / ((frag_no_frags mfm tp pj ps : ℤ) : ℝ))
      = tp.m + pj.m := by
    rw [hNcast, mul_div_cancel₀ _ hne, hrem]
    ring
  have hθ : 2 * Real.pi / ((frag_no_frags mfm tp pj ps + 0 : ℤ) : ℝ)
      = 2 * Real.pi / (((frag_no_frags mfm tp pj ps).toNat : ℕ) : ℝ) := by
    rw [hNcast]
    norm_num
  refine ⟨?_, ?_, ?_, ?_, ?_, ?_⟩
  · have hcom : tp.m * tp.x + pj.m * pj.x
        = (tp.m + pj.m) * (reb_particle_com_of_pair tp pj).x := by
      simp only [reb_particle_com_of_pair]
      field_simp
      ring
    rw [hcom]
    simp only [wsum, add_fragments, hb, hsw, if_false, if_neg, not_false_iff,
      List.map_map, Function.comp_def, List.nil_append, List.map_nil]
    exact circle_correction_sum (tp.m + pj.m) ps.Mlr _ _ hN hM0 _ _ _ _ _ hsum hθ
  · have hcom : tp.m * tp.y + pj.m * pj.y
        = (tp.m + pj.m) * (reb_particle_com_of_pair tp pj).y := by
      simp only [reb_particle_com_of_pair]
      field_simp
      ring
    rw [hcom]
    simp only [wsum, add_fragments, hb, hsw, if_false, if_neg, not_false_iff,
      List.map_map, Function.comp_def, List.nil_append, List.map_nil]
    exact circle_correction_sum (tp.m + pj.m) ps.Mlr _ _ hN hM0 _ _ _ _ _ hsum hθ
  · have hcom : tp.m * tp.z + pj.m * pj.z
        = (tp.m + pj.m) * (reb_particle_com_of_pair tp pj).z := by
      simp only [reb_particle_com_of_pair]
      field_simp
      ring
    rw [hcom]
    simp only [wsum, add_fragments, hb, hsw, if_false, if_neg, not_false_iff,
      List.map_map, Function.comp_def, List.nil_append, List.map_nil]
    exact circle_correction_sum (tp.m + pj.m) ps.Mlr _ _ hN hM0 _ _ _ _ _ hsum hθ
  · have hcom : tp.m * tp.vx + pj.m * pj.vx
        = (tp.m + pj.m) * (reb_particle_com_of_pair tp pj).vx := by
      simp only [reb_particle_com_of_pair]
      field_simp
      ring
    rw [hcom]
    simp only [wsum, add_fragments, hb, hsw, if_false, if_neg, not_false_iff,
      List.map_map, Function.comp_def, List.nil_append, List.map_nil]
    exact circle_correction_sum (tp.m + pj.m) ps.Mlr _ _ hN hM0 _ _ _ _ _ hsum hθ
  · have hcom : tp.m * tp.vy + pj.m * pj.vy
        = (tp.m + pj.m) * (reb_particle_com_of_pair tp pj).vy := by
      simp only [reb_particle_com_of_pair]
      field_simp
      ring
    rw [hcom]
    simp only [wsum, add_fragments, hb, hsw, if_false, if_neg, not_false_iff,
      List.map_map, Function.comp_def, List.nil_append, List.map_nil]
    exact circle_correction_sum (tp.m + pj.m) ps.Mlr _ _ hN hM0 _ _ _ _ _ hsum hθ
  · have hcom : tp.m * tp.vz + pj.m * pj.vz
        = (tp.m + pj.m) * (reb_particle_com_of_pair tp pj).vz := by
      simp only [reb_particle_com_of_pair]
      field_simp
      ring
    rw [hcom]
    simp only [wsum, add_fragments, hb, hsw, if_false, if_neg, not_false_iff,
      List.map_map, Function.comp_def, List.nil_append, List.map_nil]
    exact circle_correction_sum (tp.m + pj.m) ps.Mlr _ _ hN hM0 _ _ _ _ _ hsum hθ

/-- Counterexample for C1 as stated: a hit-and-run partition with a
second-largest remnant (`Mslr = 2`) and one fragment.  The second remnant is
placed at `+sep` along the impact direction and the single fragment opposite
at `-sep` with a different mass, so the placement shifts the center of mass;
the correction pass distributes the offset in proportion to mass and removes
only a fraction `sum(m_i^2)/M^2` of the discrepancy: the post-correction
mass-weighted x-sum is 17/32 instead of the pre-collision 0. -/
theorem add_fragments_com_counterexample :
    wsum (add_fragments 0 1 1 0 ⟨4, 1, 0, 0, 0, 0, 0, 0, 0, 0⟩
        ⟨4, 1, 0, 0, 0, 0, 0, 0, 0, 0⟩
        (⟨0, 0, 0, 1, 0, 0, 1, 0, 0, 0, 0, 0, 0, 0, 0, 0, 0, 1, 5, 2, 0, 0, 0, 1, 0,
          0, 0⟩ : CollisionParams)) (fun p => p.x) ≠
      (4 : ℝ) * 0 + 4 * 0 := by
  have hrem : frag_remaining_mass ⟨4, 1, 0, 0, 0, 0, 0, 0, 0, 0⟩
      ⟨4, 1, 0, 0, 0, 0, 0, 0, 0, 0⟩
      (⟨0, 0, 0, 1, 0, 0, 1, 0, 0, 0, 0, 0, 0, 0, 0, 0, 0, 1, 5, 2, 0, 0, 0, 1, 0,
        0, 0⟩ : CollisionParams) = 1 := by
    norm_num [frag_remaining_mass]
  have hnf : frag_no_frags 1 ⟨4, 1, 0, 0, 0, 0, 0, 0, 0, 0⟩
      ⟨4, 1, 0, 0, 0, 0, 0, 0, 0, 0⟩
      (⟨0, 0, 0, 1, 0, 0, 1, 0, 0, 0, 0, 0, 0, 0, 0, 0, 0, 1, 5, 2, 0, 0, 0, 1, 0,
        0, 0⟩ : CollisionParams) = 1 := by
    rw [frag_no_frags, hrem]
    norm_num [ctrunc]
  have hpi : 2 * Real.pi / 2 = Real.pi := by ring
  simp only [wsum, add_fragments, hnf, hrem, reb_particle_com_of_pair, get_mag,
    get_radii, fragment_velocity_of, List.map_map, Function.comp_def]
  norm_num [List.range_succ, List.range_zero, Real.sqrt_one, hpi, Real.cos_pi,
    Real.sin_pi, Real.sqrt_zero]

/-- Witness for the amended C1: a pair of mass-3 bodies with `Mlr = 2`, no
second remnant, four fragments; the corrected mass-weighted x-sum equals the
pre-collision one. -/
theorem add_fragments_com_conservation_witness :
    wsum (add_fragments 0 0 1 0 ⟨3, 1, 0, 0, 0, 0, 0, 0, 0, 0⟩
        ⟨3, 1, 0, 0, 0, 0, 0, 0, 0, 0⟩
        ({ (default : CollisionParams) with Mlr := 2 })) (fun p => p.x) =
      (3 : ℝ) * 0 + 3 * 0 := by
  have h := add_fragments_com_conservation 0 0 1 0 ⟨3, 1, 0, 0, 0, 0, 0, 0, 0, 0⟩
    ⟨3, 1, 0, 0, 0, 0, 0, 0, 0, 0⟩ ({ (default : CollisionParams) with Mlr := 2 })
    (by norm_num) (by norm_num)
    (by simp [default])
    (by show (2 : ℤ) ≤ frag_no_frags 1 _ _ _
        simp [frag_no_frags, frag_remaining_mass, ctrunc, default]
        norm_num)
  exact h.1

/-- C4: on a precondition violation (here a residual mass that is negative
because `Mlr` exceeds the pair's total mass) the `mars_shearing_sheet` copy of
`add_fragments` stops the run (`assert(remaining_mass > 0)`, modelled as
`none`), but the `fragmentation` copy has no such check on its path into
fragment synthesis: it proceeds and produces a mutated target of mass
9 (above the pair's total mass 8) with no fragments, instead of aborting. -/
theorem missing_fragmentation_guards :
    frag_remaining_mass ⟨4, 1, 0, 0, 0, 0, 0, 0, 0, 0⟩ ⟨4, 1, 0, 0, 0, 0, 0, 0, 0, 0⟩
      (⟨0, 0, 0, 0, 0, 0, 0, 0, 0, 0, 0, 0, 0, 0, 0, 0, 0, 0, 9, 0, 0, 0, 0, 0, 0, 0, 0⟩ : CollisionParams) < 0 ∧
    ss_add_fragments 0 1 1 10 10 0 ⟨4, 1, 0, 0, 0, 0, 0, 0, 0, 0⟩
      ⟨4, 1, 0, 0, 0, 0, 0, 0, 0, 0⟩
      (⟨0, 0, 0, 0, 0, 0, 0, 0, 0, 0, 0, 0, 0, 0, 0, 0, 0, 0, 9, 0, 0, 0, 0, 0, 0, 0, 0⟩ : CollisionParams) = none ∧
    (add_fragments 0 1 1 0 ⟨4, 1, 0, 0, 0, 0, 0, 0, 0, 0⟩
      ⟨4, 1, 0, 0, 0, 0, 0, 0, 0, 0⟩
      (⟨0, 0, 0, 0, 0, 0, 0, 0, 0, 0, 0, 0, 0, 0, 0, 0, 0, 0, 9, 0, 0, 0, 0, 0, 0, 0, 0⟩ : CollisionParams)).target.m = 9 ∧
    (add_fragments 0 1 1 0 ⟨4, 1, 0, 0, 0, 0, 0, 0, 0, 0⟩
      ⟨4, 1, 0, 0, 0, 0, 0, 0, 0, 0⟩
      (⟨0, 0, 0, 0, 0, 0, 0, 0, 0, 0, 0, 0, 0, 0, 0, 0, 0, 0, 9, 0, 0, 0, 0, 0, 0, 0, 0⟩ : CollisionParams)).newParts = [] := by
  have hrem : frag_remaining_mass ⟨4, 1, 0, 0, 0, 0, 0, 0, 0, 0⟩
      ⟨4, 1, 0, 0, 0, 0, 0, 0, 0, 0⟩
      (⟨0, 0, 0, 0, 0, 0, 0, 0, 0, 0, 0, 0, 0, 0, 0, 0, 0, 0, 9, 0, 0, 0, 0, 0, 0, 0, 0⟩ : CollisionParams) = -1 := by
    simp [frag_remaining_mass]
    norm_num
  have hnf : frag_no_frags 1 ⟨4, 1, 0, 0, 0, 0, 0, 0, 0, 0⟩
      ⟨4, 1, 0, 0, 0, 0, 0, 0, 0, 0⟩
      (⟨0, 0, 0, 0, 0, 0, 0, 0, 0, 0, 0, 0, 0, 0, 0, 0, 0, 0, 9, 0, 0, 0, 0, 0, 0, 0, 0⟩ : CollisionParams) = -1 := by
    rw [frag_no_frags, hrem]
    norm_num [ctrunc]
  refine ⟨by rw [hrem]; norm_num, ?_, ?_, ?_⟩
  · rw [ss_add_fragments, hrem]
    norm_num
  · simp [add_fragments, hnf, hrem]
  · simp [add_fragments, hnf, hrem]

/-- C2: for every resolved collision outcome the total mass after resolution
equals the mass of the colliding pair: `merge` gives the target the summed
mass, and `add_fragments` splits the pair mass into the target (`Mlr`, or the
swapped single-fragment mass), the optional second-largest remnant and the
equal-mass fragments, which sum back to the pair mass exactly. -/
theorem resolve_mass_conservation :
    (∀ (pi pj : Particle) (t : ℝ), (merge_body pi pj t).m = pi.m + pj.m) ∧
    (∀ (G t mfm : ℝ) (tot : ℤ) (tp pj : Particle) (ps : CollisionParams),
      1 ≤ frag_no_frags mfm tp pj ps →
      (add_fragments G t mfm tot tp pj ps).target.m +
        (((add_fragments G t mfm tot tp pj ps).newParts.map fun p => p.m).sum) =
        tp.m + pj.m) :=
  ⟨fun _ _ _ => rfl,
   fun G t mfm tot tp pj ps h => add_fragments_mass_sum G t mfm tot tp pj ps h⟩

/-- Witness for C2: a pair of mass-3 bodies with `Mlr = 2` produces four
unit-mass fragments and conserves total mass 6. -/
theorem resolve_mass_conservation_witness :
    (add_fragments 0 0 1 0 ⟨3, 1, 0, 0, 0, 0, 0, 0, 0, 0⟩
        ⟨3, 1, 0, 0, 0, 0, 0, 0, 0, 0⟩
        ({ (default : CollisionParams) with Mlr := 2 })).target.m +
      (((add_fragments 0 0 1 0 ⟨3, 1, 0, 0, 0, 0, 0, 0, 0, 0⟩
        ⟨3, 1, 0, 0, 0, 0, 0, 0, 0, 0⟩
        ({ (default : CollisionParams) with Mlr := 2 })).newParts.map
          fun p => p.m).sum) = 3 + 3 := by
  apply resolve_mass_conservation.2
  show (1 : ℤ) ≤ frag_no_frags 1 _ _ _
  simp [frag_no_frags, frag_remaining_mass, ctrunc, default]
  norm_num

/-- C7: if either body referenced by the event already carries a
last-collision stamp equal to the current simulation time, the resolver
returns disposition code 0 with the simulation state untouched (the first
guard of `reb_collision_resolve_fragment`); since every merge or
fragmentation path stamps the surviving bodies with the current time, a
second call in the same simulated instant takes this no-op branch. -/
theorem resolve_same_instant_noop (hs : SimState → Collision → SimState)
    (st : SimState) (c : Collision)
    (h : (st.particles.getD c.p1 default).last_collision = st.t ∨
      (st.particles.getD c.p2 default).last_collision = st.t) :
    reb_collision_resolve_fragment hs st c = some (st, 0) := by
  unfold reb_collision_resolve_fragment
  rw [if_pos h]

/-- Witness for C7: a two-particle state at `t = 3` whose first particle was
already resolved at `t = 3`. -/
theorem resolve_same_instant_noop_witness :
    reb_collision_resolve_fragment (fun s _ => s)
      ⟨[⟨0, 0, 0, 0, 0, 0, 0, 0, 3, 0⟩, ⟨0, 0, 0, 0, 0, 0, 0, 0, 0, 0⟩],
        3, 1, 1, 0⟩ ⟨0, 1⟩ =
    some (⟨[⟨0, 0, 0, 0, 0, 0, 0, 0, 3, 0⟩, ⟨0, 0, 0, 0, 0, 0, 0, 0, 0, 0⟩],
        3, 1, 1, 0⟩, 0) := by
  apply resolve_same_instant_noop
  left
  simp [List.getD]

/-- C9: whenever the event's first particle index is below the second
(`c.p1 < c.p2`), the resolver returns disposition code 0 with the state
untouched, regardless of timestamps, masses or geometry: only one ordering
of each reported pair is ever processed. -/
theorem resolve_ordered_pair_noop (hs : SimState → Collision → SimState)
    (st : SimState) (c : Collision) (h : c.p1 < c.p2) :
    reb_collision_resolve_fragment hs st c = some (st, 0) := by
  unfold reb_collision_resolve_fragment
  by_cases hg : (st.particles.getD c.p1 default).last_collision = st.t ∨
      (st.particles.getD c.p2 default).last_collision = st.t
  · rw [if_pos hg]
  · rw [if_neg hg, if_pos h]

/-- Witness for C9: a two-particle state with stale timestamps and the event
reported as `(0, 1)`. -/
theorem resolve_ordered_pair_noop_witness :
    reb_collision_resolve_fragment (fun s _ => s)
      ⟨[⟨1, 1, 0, 0, 0, 0, 0, 0, 0, 0⟩, ⟨2, 1, 0, 0, 0, 0, 0, 0, 0, 0⟩],
        1, 1, 1, 0⟩ ⟨0, 1⟩ =
    some (⟨[⟨1, 1, 0, 0, 0, 0, 0, 0, 0, 0⟩, ⟨2, 1, 0, 0, 0, 0, 0, 0, 0, 0⟩],
        1, 1, 1, 0⟩, 0) :=
  resolve_ordered_pair_noop (fun s _ => s) _ _ (by norm_num)

/-- C3: the collision classifier reaches exactly one terminal outcome for
every derived context, by the rules evaluated in order: `Vi <= V_esc` gives
Merge; else for a central impact (`b < r_target`), `Mtot - Mlr <
min_frag_mass` gives EffectiveMerge, otherwise `Mlr < m_target` gives
SuperCatastrophic when `Mlr <= 0.1*m_target` and PartialErosion when `Mlr >
0.1*m_target`, and `Mlr >= m_target` gives PartialAccretion; else
(`b >= r_target`) the event is delegated to the hit-and-run sub-resolver.
Each iff below characterises one outcome; together they show the six regions
partition the input space, so no tuple reaches an undefined branch. -/
theorem classify_total_cases (Vi V_esc b targ_r M_tot Mlr targ_m mfm : ℝ) :
    (classify Vi V_esc b targ_r M_tot Mlr targ_m mfm = .Merge ↔ Vi ≤ V_esc) ∧
    (classify Vi V_esc b targ_r M_tot Mlr targ_m mfm = .EffectiveMerge ↔
      V_esc < Vi ∧ b < targ_r ∧ M_tot - Mlr < mfm) ∧
    (classify Vi V_esc b targ_r M_tot Mlr targ_m mfm = .SuperCatastrophic ↔
      V_esc < Vi ∧ b < targ_r ∧ mfm ≤ M_tot - Mlr ∧ Mlr < targ_m ∧
        Mlr ≤ 0.1 * targ_m) ∧
    (classify Vi V_esc b targ_r M_tot Mlr targ_m mfm = .PartialErosion ↔
      V_esc < Vi ∧ b < targ_r ∧ mfm ≤ M_tot - Mlr ∧ Mlr < targ_m ∧
        0.1 * targ_m < Mlr) ∧
    (classify Vi V_esc b targ_r M_tot Mlr targ_m mfm = .PartialAccretion ↔
      V_esc < Vi ∧ b < targ_r ∧ mfm ≤ M_tot - Mlr ∧ targ_m ≤ Mlr) ∧
    (classify Vi V_esc b targ_r M_tot Mlr targ_m mfm = .HitAndRunDelegate ↔
      V_esc < Vi ∧ targ_r ≤ b) := by
  unfold classify
  split_ifs with h1 h2 h3 h4 h5 <;> simp_all [not_le, not_lt, le_of_lt]

/-- C5: the provisional largest-remnant mass satisfies
`Mlr = Mtot*(1 - 0.5*Q/Q_star)` when `Q/Q_star < 1.8` and
`Mlr = 0.1*Mtot*(Q/(1.8*Q_star))^(-1.5)` otherwise, where
`Q_star = (mu/alphamu)^1.5 * (1+gamma)^2/(4*gamma) * Q0`, except that
`alpha = 0` forces the effectively-infinite sentinel and a head-on
equal-mass encounter (`b = 0`, `imp_m = targ_m`) forces `Q_star = Q0`. -/
theorem qstar_mlr_formulas (mu alphamu gamma Q0 alpha b imp_m targ_m M_tot Q Qs : ℝ) :
    Q_star_of mu alphamu gamma Q0 alpha b imp_m targ_m =
      (if b = 0 ∧ imp_m = targ_m then Q0
       else if alpha = 0 then 6364136223846793005.0
       else (mu / alphamu) ^ (1.5 : ℝ) * ((1 + gamma) ^ 2 / (4 * gamma)) * Q0) ∧
    (Q / Qs < 1.8 → Mlr_of M_tot Q Qs = M_tot * (1 - 0.5 * (Q / Qs))) ∧
    (1.8 ≤ Q / Qs → Mlr_of M_tot Q Qs =
      0.1 * M_tot * (Q / (1.8 * Qs)) ^ (-1.5 : ℝ)) := by
  refine ⟨?_, ?_, ?_⟩
  · unfold Q_star_of
    by_cases hb : b = 0 ∧ imp_m = targ_m <;> by_cases ha : alpha = 0 <;>
      simp [hb, ha]
  · intro h
    unfold Mlr_of
    rw [if_pos h]
    norm_num
  · intro h
    unfold Mlr_of
    rw [if_neg (not_lt.mpr h), div_div, mul_comm Qs 1.8]

/-- Witness for C5 at a concrete input: `alpha = 0` (with a non-head-on
geometry) selects the sentinel, and a sub-critical energy ratio selects the
linear branch of `Mlr`. -/
theorem qstar_mlr_formulas_witness :
    Q_star_of 1 1 1 7 0 1 2 3 = 6364136223846793005.0 ∧
    Mlr_of 2 1 1 = 2 * (1 - 0.5 * (1 / 1)) := by
  constructor
  · rw [(qstar_mlr_formulas 1 1 1 7 0 1 2 3 2 1 1).1]
    norm_num
  · exact (qstar_mlr_formulas 1 1 1 7 0 1 2 3 2 1 1).2.1 (by norm_num)

/-- C6: the merge operator sets the target's velocity and position to the
mass-weighted averages of the two bodies, its mass to the sum, its
last-collision stamp to the current time, recomputes its radius from the
combined mass at the target's own pre-merge density
`pi.m / ((4/3)*pi*pi.r^3)` (the final conjunct: new volume times the
target's old density equals the combined mass), and leaves every other field
(the identifier) unchanged; the projectile record is not written at all. -/
theorem merge_props (pi pj : Particle) (t : ℝ)
    (hm : 0 < pi.m) (hmj : 0 < pj.m) (hr : 0 < pi.r) :
    (merge_body pi pj t).m = pi.m + pj.m ∧
    (merge_body pi pj t).vx = (pi.vx * pi.m + pj.vx * pj.m) / (pi.m + pj.m) ∧
    (merge_body pi pj t).vy = (pi.vy * pi.m + pj.vy * pj.m) / (pi.m + pj.m) ∧
    (merge_body pi pj t).vz = (pi.vz * pi.m + pj.vz * pj.m) / (pi.m + pj.m) ∧
    (merge_body pi pj t).x = (pi.x * pi.m + pj.x * pj.m) / (pi.m + pj.m) ∧
    (merge_body pi pj t).y = (pi.y * pi.m + pj.y * pj.m) / (pi.m + pj.m) ∧
    (merge_body pi pj t).z = (pi.z * pi.m + pj.z * pj.m) / (pi.m + pj.m) ∧
    (merge_body pi pj t).last_collision = t ∧
    (merge_body pi pj t).hash = pi.hash ∧
    4 / 3 * Real.pi * (pi.m / (4 / 3 * Real.pi * pi.r ^ 3)) *
      (merge_body pi pj t).r ^ (3 : ℕ) = pi.m + pj.m := by
  have hπ := Real.pi_pos
  have hρ : 0 < pi.m / (4 / 3 * Real.pi * pi.r ^ 3) := by positivity
  have hbase : (0 : ℝ) ≤
      3 * (pi.m + pj.m) / (4 * Real.pi * (pi.m / (4 / 3 * Real.pi * pi.r ^ 3))) := by
    positivity
  refine ⟨rfl, ?_, ?_, ?_, ?_, ?_, ?_, rfl, rfl, ?_⟩
  · show (pi.vx * pi.m + pj.vx * pj.m) * (1.0 / (pi.m + pj.m)) = _
    norm_num [div_eq_mul_inv]
  · show (pi.vy * pi.m + pj.vy * pj.m) * (1.0 / (pi.m + pj.m)) = _
    norm_num [div_eq_mul_inv]
  · show (pi.vz * pi.m + pj.vz * pj.m) * (1.0 / (pi.m + pj.m)) = _
    norm_num [div_eq_mul_inv]
  · show (pi.x * pi.m + pj.x * pj.m) * (1.0 / (pi.m + pj.m)) = _
    norm_num [div_eq_mul_inv]
  · show (pi.y * pi.m + pj.y * pj.m) * (1.0 / (pi.m + pj.m)) = _
    norm_num [div_eq_mul_inv]
  · show (pi.z * pi.m + pj.z * pj.m) * (1.0 / (pi.m + pj.m)) = _
    norm_num [div_eq_mul_inv]
  · show 4 / 3 * Real.pi * (pi.m / (4 / 3 * Real.pi * pi.r ^ 3)) *
      ((3 * (pi.m + pj.m) / (4 * Real.pi * (pi.m / (4 / 3 * Real.pi * pi.r ^ 3))))
        ^ ((1 : ℝ) / 3)) ^ (3 : ℕ) = pi.m + pj.m
    rw [← Real.rpow_natCast ((3 * (pi.m + pj.m) /
      (4 * Real.pi * (pi.m / (4 / 3 * Real.pi * pi.r ^ 3)))) ^ ((1 : ℝ) / 3)) 3,
      ← Real.rpow_mul hbase]
    norm_num
    field_simp
    ring

/-- Witness for C6 at a concrete pair of unit bodies. -/
theorem merge_props_witness :
    (merge_body ⟨1, 1, 0, 0, 0, 0, 0, 0, 0, 0⟩ ⟨1, 1, 0, 0, 0, 0, 0, 0, 0, 0⟩
      (5 : ℝ)).m = 1 + 1 ∧
    (merge_body ⟨1, 1, 0, 0, 0, 0, 0, 0, 0, 0⟩ ⟨1, 1, 0, 0, 0, 0, 0, 0, 0, 0⟩
      (5 : ℝ)).last_collision = 5 := by
  have h := merge_props ⟨1, 1, 0, 0, 0, 0, 0, 0, 0, 0⟩ ⟨1, 1, 0, 0, 0, 0, 0, 0, 0, 0⟩
    (5 : ℝ) (by norm_num) (by norm_num) (by norm_num)
  exact ⟨h.1, h.2.2.2.2.2.2.2.1⟩

/-- C10: with the separation distance fixed at `4*(r_target+r_projectile)`,
the argument of the square root in the fragment ejection speed equals
`0.35*V_esc^2` exactly, so the common outward speed given to every new body
is well-defined (non-negative argument), positive, and equal to
`sqrt(0.35)*V_esc`. -/
theorem fragment_velocity_exact (G M V_esc rtot sep : ℝ)
    (hG : 0 < G) (hM : 0 < M) (hr : 0 < rtot)
    (hV : V_esc = (2 * G * M / rtot) ^ (0.5 : ℝ))
    (hsep : sep = 4 * rtot) :
    0 < 1.1 * V_esc ^ 2 - 2 * G * M * (1 / rtot - 1 / sep) ∧
    1.1 * V_esc ^ 2 - 2 * G * M * (1 / rtot - 1 / sep) = 0.35 * V_esc ^ 2 ∧
    fragment_velocity_of G M V_esc rtot sep = Real.sqrt 0.35 * V_esc ∧
    0 < fragment_velocity_of G M V_esc rtot sep := by
  have hx : (0 : ℝ) < 2 * G * M / rtot := by positivity
  have hV0 : 0 < V_esc := hV ▸ Real.rpow_pos_of_pos hx _
  have hVsq : V_esc ^ 2 = 2 * G * M / rtot := by
    rw [hV, ← Real.rpow_natCast ((2 * G * M / rtot) ^ (0.5 : ℝ)) 2,
      ← Real.rpow_mul hx.le]
    norm_num
  have harg : 1.1 * V_esc ^ 2 - 2 * G * M * (1 / rtot - 1 / sep)
      = 0.35 * V_esc ^ 2 := by
    rw [hVsq, hsep]
    field_simp
    ring
  have hpos : 0 < 0.35 * V_esc ^ 2 := by positivity
  refine ⟨harg ▸ hpos, harg, ?_, ?_⟩
  · unfold fragment_velocity_of
    rw [harg, Real.sqrt_mul (by norm_num) (V_esc ^ 2), Real.sqrt_sq hV0.le]
  · unfold fragment_velocity_of
    rw [harg]
    exact Real.sqrt_pos.mpr hpos

/-- Witness for C10 at `G = 1`, `M = 2`, `rtot = 1`, `sep = 4`. -/
theorem fragment_velocity_exact_witness :
    fragment_velocity_of 1 2 ((4 : ℝ) ^ (0.5 : ℝ)) 1 4 =
      Real.sqrt 0.35 * (4 : ℝ) ^ (0.5 : ℝ) ∧
    0 < fragment_velocity_of 1 2 ((4 : ℝ) ^ (0.5 : ℝ)) 1 4 := by
  have h := fragment_velocity_exact 1 2 ((4 : ℝ) ^ (0.5 : ℝ)) 1 4
    (by norm_num) (by norm_num) (by norm_num) (by norm_num) (by norm_num)
  exact ⟨h.2.2.1, h.2.2.2⟩

end MarsDisk
